import Mathlib

/-!
Verification development for the neoneo tool-calling conversation engine.

The definitions below are a shallow embedding of the C++ sources:
  src/ollama_client.cpp   (streaming reassembly, tool-call extraction, chat)
  src/tools/calculator_tool.cpp, shell_tool.cpp, bash_tool.cpp,
  src/tools/file_tools.cpp, src/tools/tools_base.cpp, src/main.cpp.

Conventions of the embedding:
  * JSON values are the inductive `Json`; `nlohmann::json::parse` is taken
    as an abstract parameter `parse : String -> Option Json` (none = parse
    error), because the claims concern how the code reacts to a parse
    result, not the JSON grammar itself.
  * Side-effecting tool executions return a `ToolResult` together with an
    ordered trace of observable events (`Event`): confirmation-gate
    invocations (with the operator response), subprocess spawns, and file
    writes.  The operator keypresses are an oracle `resp : Nat -> Bool`
    indexed by the number of gates shown so far in the execution
    (true = Enter/confirm, false = any other key/cancel).
  * Subprocess output capture (pipe reads, cooperative timeout polling) is
    abstracted into an output oracle (for example `bcOut`, `runOut`): real
    time is not modelled; all claims here concern what happens before or
    instead of the spawn, or pure post-processing of the captured output.
  * C++ exceptions thrown by `json::get<T>` on mistyped values are
    modelled with `Except String`; strings are compared as character
    lists (all relevant data is ASCII, so byte and character counts agree).
-/

namespace Neoneo

/-- JSON values, mirroring `nlohmann::json` (numbers restricted to the
integers actually used by the engine). -/
inductive Json where
  | null
  | bool (b : Bool)
  | num (n : Int)
  | str (s : String)
  | arr (xs : List Json)
  | obj (kvs : List (String × Json))
deriving Repr

/-- Model of `j.contains(k) ? j[k] : none` on an object; `contains` is false on
non-objects, as in nlohmann. -/
def Json.lookup : Json → String → Option Json
  | .obj kvs, k => List.lookup k kvs
  | _, _ => none

/-- Model of `j.contains(k) && j[k].is_string()`, returning the string. -/
def Json.getStr (j : Json) (k : String) : Option String :=
  match j.lookup k with
  | some (.str s) => some s
  | _ => none

/-- Model of `j.contains(k) && j[k].is_number()`, returning the integer. -/
def Json.getInt (j : Json) (k : String) : Option Int :=
  match j.lookup k with
  | some (.num n) => some n
  | _ => none

/-- Model of `ToolResult` from tools.hpp usage: tagged success/error outcome. -/
structure ToolResult where
  is_success : Bool
  content : String
  error_message : String
deriving Repr, DecidableEq

def ToolResult.success (c : String) : ToolResult := ⟨true, c, ""⟩

def ToolResult.error (m : String) : ToolResult := ⟨false, "", m⟩

/-- The configuration flags consulted by the tools (config.cpp). -/
structure Config where
  ignore_calc_safety : Bool
  ignore_shell_safety : Bool
  auto_confirm_shell : Bool
  auto_confirm_file_ops : Bool
deriving Repr, DecidableEq

/-- Observable events of a tool execution, in program order:
a confirmation-gate invocation together with the operator response,
a subprocess spawn (`popen`), or a file write. -/
inductive Event where
  | gate (confirmed : Bool)
  | spawn (cmd : String)
  | fileWrite (path : String) (content : String)
deriving Repr, DecidableEq

def Event.isGate : Event → Bool
  | .gate _ => true
  | _ => false

/-- Spawns and file writes are the side effects; gate prompts are not. -/
def Event.isSideEffect : Event → Bool
  | .gate _ => false
  | _ => true

def Event.isWrite : Event → Bool
  | .fileWrite _ _ => true
  | _ => false

def countGates (t : List Event) : Nat := (t.filter Event.isGate).length

def countWrites (t : List Event) : Nat := (t.filter Event.isWrite).length

/-- Gate invocations that occur strictly before the first side effect. -/
def gatesBeforeEffect (t : List Event) : Nat :=
  countGates (t.takeWhile (fun e => !e.isSideEffect))

/-- Model of `std::string::find(pat)` on character lists: index of the first
occurrence of `pat` in `s`, if any. -/
def findSubstrAux (pat : List Char) : List Char → Nat → Option Nat
  | s, i =>
    if pat.isPrefixOf s then some i
    else match s with
      | [] => none
      | _ :: rest => findSubstrAux pat rest (i + 1)

def findSubstr (s pat : List Char) : Option Nat := findSubstrAux pat s 0

/-- Model of `s.find(pat) != std::string::npos`. -/
def containsSub (s pat : String) : Bool := (findSubstr s.data pat.data).isSome

/-- C++ `isspace` characters trimmed by the calculator. -/
def isSpaceChar (c : Char) : Bool :=
  c = ' ' || c = '\t' || c = '\n' || c = '\x0b' || c = '\x0c' || c = '\r'

/-- Trim whitespace at both ends (the calculator lambda `trim`). -/
def trimStr (s : String) : String :=
  (((s.data.dropWhile isSpaceChar).reverse.dropWhile isSpaceChar).reverse).asString

/-- Model of `substr(0, n)` as characters. -/
def strTake (s : String) (n : Nat) : String := (s.data.take n).asString

/-- A single-quote character, written out to embed it in command lines. -/
def squote : String := String.singleton (Char.ofNat 39)

/-- Last character of a string, if any. -/
def lastChar (s : String) : Option Char := s.data.getLast?

/-! ## Calculator tool (calculator_tool.cpp) -/

/-- The allowed-character set of `CalculatorTool::execute`. -/
def allowedCalcChars : String :=
  "0123456789.+-*/^%() \t\nabcdefghijklmnopqrstuvwxyzABCDEFGHIJKLMNOPQRSTUVWXYZ_"

def isAllowedCalcChar (c : Char) : Bool := allowedCalcChars.data.contains c

/-- Drop every character outside the allowed set (the sanitizing loop). -/
def calcSanitize (e : String) : String := (e.data.filter isAllowedCalcChar).asString

/-- Blocked patterns of `CalculatorTool::is_expression_safe`, in array order. -/
def calcBlockedPatterns : List String :=
  ["system", "exec", "shell", "quit", "halt", "cd", "rm", "mv"]

/-- First blocked pattern occurring in the expression, if any
(`is_expression_safe` returns false and reports this pattern). -/
def calcBlocked (e : String) : Option String :=
  calcBlockedPatterns.find? (fun p => containsSub e p)

/-- The evaluation phase of the calculator: truncate to 500 characters,
build the `bc` command line, spawn it, post-process the captured output.
`bcOut` abstracts the pipe read (timeout and oversize paths also return
errors, but only after the spawn, which is all the claims depend on). -/
def calcRun (bcOut : String → String) (sanitized : String) (evs : List Event) :
    ToolResult × List Event :=
  let expr := strTake sanitized 500
  let cmd := "echo " ++ squote ++ expr ++ squote ++ " | BC_LINE_LENGTH=0 bc -l"
  let result := trimStr (bcOut cmd)
  (if result.isEmpty then ToolResult.error "Invalid expression or no result"
   else if containsSub result "syntax error" || containsSub result "error" then
     ToolResult.error ("Error: " ++ result)
   else ToolResult.success result,
   evs ++ [Event.spawn cmd])

/-- Model of `CalculatorTool::execute`. -/
def calcExecute (cfg : Config) (resp : Nat → Bool) (bcOut : String → String)
    (args : Json) : ToolResult × List Event :=
  match args.getStr "expression" with
  | none => (ToolResult.error "Missing or invalid expression parameter", [])
  | some expression =>
    let sanitized := calcSanitize expression
    match (if cfg.ignore_calc_safety then none else calcBlocked sanitized) with
    | some pat =>
      if resp 0 then calcRun bcOut sanitized [Event.gate true]
      else (ToolResult.error
              ("Calculation aborted due to security concerns with pattern: " ++ pat),
            [Event.gate false])
    | none => calcRun bcOut sanitized []

/-! ## Shell tool (shell_tool.cpp) -/

/-- Blocked substrings of `ShellTool::is_command_safe`, in vector order. -/
def shellBlockedCommands : List String :=
  ["rm", "mkfs", "dd", ">", ">>", "|", "&", ";", "&&", "||",
   "sudo", "su", "chmod", "chown", "passwd", "mv", "curl", "wget",
   "ssh", "scp", "ftp", "telnet", "nc", "ncat", "sleep", "perl",
   "python", "python3", "ruby", "bash", "sh", "zsh", "csh", "ksh"]

def shellBlocked (cmd : String) : Option String :=
  shellBlockedCommands.find? (fun p => containsSub cmd p)

/-- Timeout extraction with the 1..30 clamp (default 5). -/
def shellTimeoutOf (args : Json) : Int :=
  match args.getInt "timeout" with
  | some t => if t > 30 then 30 else if t < 1 then 1 else t
  | none => 5

/-- Output-size cap of the shell read loop. -/
def shellPost (out : String) : String :=
  if out.length > 1000 then strTake out 1000 ++ "\n... (output truncated)" else out

/-- Spawn phase: append `2>&1`, run, post-process.  `runOut` abstracts the
pipe read under the given timeout (the timeout path errors after the
spawn). -/
def shellRun (runOut : String → Int → String) (command : String) (t : Int)
    (evs : List Event) : ToolResult × List Event :=
  let cmd := command ++ " 2>&1"
  let out := shellPost (runOut cmd t)
  (ToolResult.success
     (if out.isEmpty then "Command executed successfully (no output)" else out),
   evs ++ [Event.spawn cmd])

/-- The unconditional confirmation required when auto-confirm-shell is off;
`k` is the index of the next operator response. -/
def shellConfirm (cfg : Config) (resp : Nat → Bool) (runOut : String → Int → String)
    (command : String) (t : Int) (k : Nat) (evs : List Event) :
    ToolResult × List Event :=
  if cfg.auto_confirm_shell then shellRun runOut command t evs
  else if resp k then shellRun runOut command t (evs ++ [Event.gate true])
  else (ToolResult.error "Command execution denied by user", evs ++ [Event.gate false])

/-- Model of `ShellTool::execute`. -/
def shellExecute (cfg : Config) (resp : Nat → Bool) (runOut : String → Int → String)
    (args : Json) : ToolResult × List Event :=
  match args.getStr "command" with
  | none => (ToolResult.error "Missing or invalid command parameter", [])
  | some command =>
    let t := shellTimeoutOf args
    match (if cfg.ignore_shell_safety then none else shellBlocked command) with
    | some op =>
      if resp 0 then shellConfirm cfg resp runOut command t 1 [Event.gate true]
      else (ToolResult.error
              ("Command execution aborted due to security concerns with operation: " ++ op),
            [Event.gate false])
    | none => shellConfirm cfg resp runOut command t 0 []

/-! ## Bash tool (bash_tool.cpp) -/

/-- Blocked substrings of `BashTool::is_command_safe`, in vector order. -/
def bashBlockedCommands : List String :=
  ["rm -rf", "mkfs", "dd if=", "> /dev", "echo > /dev", ">/dev",
   "sudo rm", "sudo mv", "sudo cp", "reboot", "shutdown",
   "passwd", "chmod 777", "chmod -R 777", ":()\x7b :|:& \x7d;:", "fork bomb"]

def bashBlocked (cmd : String) : Option String :=
  bashBlockedCommands.find? (fun p => containsSub cmd p)

/-- Timeout extraction with the 1..60 clamp (default 10). -/
def bashTimeoutOf (args : Json) : Int :=
  match args.getInt "timeout" with
  | some t => if t > 60 then 60 else if t < 1 then 1 else t
  | none => 10

/-- Working-directory prefixing: the command the safety check and the
confirmation dialogs actually see. -/
def bashCommandOf (args : Json) (command : String) : String :=
  match args.getStr "working_directory" with
  | some wd => "cd \"" ++ wd ++ "\" && " ++ command
  | none => command

/-- Spawn phase of the bash tool; `runBash` abstracts
`BashTool::execute_command` output capture and exit-code formatting. -/
def bashRun (runBash : String → Int → String) (command : String) (t : Int)
    (evs : List Event) : ToolResult × List Event :=
  let cmd := command ++ " 2>&1"
  (ToolResult.success (runBash cmd t), evs ++ [Event.spawn cmd])

def bashConfirm (cfg : Config) (resp : Nat → Bool) (runBash : String → Int → String)
    (command : String) (t : Int) (k : Nat) (evs : List Event) :
    ToolResult × List Event :=
  if cfg.auto_confirm_shell then bashRun runBash command t evs
  else if resp k then bashRun runBash command t (evs ++ [Event.gate true])
  else (ToolResult.error "Command execution denied by user", evs ++ [Event.gate false])

/-- Model of `BashTool::execute`. -/
def bashExecute (cfg : Config) (resp : Nat → Bool) (runBash : String → Int → String)
    (args : Json) : ToolResult × List Event :=
  match args.getStr "command" with
  | none => (ToolResult.error "Missing or invalid command parameter", [])
  | some command0 =>
    let t := bashTimeoutOf args
    let command := bashCommandOf args command0
    match (if cfg.ignore_shell_safety then none else bashBlocked command) with
    | some op =>
      if resp 0 then bashConfirm cfg resp runBash command t 1 [Event.gate true]
      else (ToolResult.error
              ("Command execution aborted due to security concerns with operation: " ++ op),
            [Event.gate false])
    | none => bashConfirm cfg resp runBash command t 0 []

/-! ## File tools (file_tools.cpp) -/

/-- Model of `FileWriteTool::execute`.  Parent-directory creation and the actual
stream write are abstracted into the single `fileWrite` event. -/
def fileWriteExecute (cfg : Config) (resp : Nat → Bool) (args : Json) :
    ToolResult × List Event :=
  match args.getStr "path" with
  | none => (ToolResult.error "Missing or invalid path parameter", [])
  | some path =>
    match args.getStr "content" with
    | none => (ToolResult.error "Missing or invalid content parameter", [])
    | some content =>
      if containsSub path ".." then
        (ToolResult.error "Path contains forbidden .. sequence", [])
      else if cfg.auto_confirm_file_ops then
        (ToolResult.success ("File successfully written: " ++ path ++
           " (" ++ toString content.length ++ " bytes)"),
         [Event.fileWrite path content])
      else if resp 0 then
        (ToolResult.success ("File successfully written: " ++ path ++
           " (" ++ toString content.length ++ " bytes)"),
         [Event.gate true, Event.fileWrite path content])
      else
        (ToolResult.error "File write operation denied by user", [Event.gate false])

/-- The edit operation of `FileEditTool::execute`, selected by which
argument set is present. -/
inductive EditOp where
  | replaceAll (text : String)
  | replaceText (oldText newText : String)
  | append (text : String)
  | prepend (text : String)
  | insertLine (lineNumber : Int) (text : String)
deriving Repr

/-- Operation selection, in the if-else-if order of the source. -/
def editOpOf (args : Json) : Option EditOp :=
  match args.getStr "replace_all" with
  | some t => some (.replaceAll t)
  | none =>
    match args.getStr "old_text", args.getStr "new_text" with
    | some o, some n => some (.replaceText o n)
    | _, _ =>
      match args.getStr "append" with
      | some t => some (.append t)
      | none =>
        match args.getStr "prepend" with
        | some t => some (.prepend t)
        | none =>
          match args.getInt "insert_at_line", args.getStr "text" with
          | some ln, some t => some (.insertLine ln t)
          | _, _ => none

/-- Model of `std::getline` splitting: lines are terminated by a newline or by the
end of input, and an empty input yields no lines (so a final newline does
not produce a trailing empty line). -/
def getlineSplitCh : List Char → List (List Char)
  | [] => []
  | c :: rest =>
    if c = '\n' then [] :: getlineSplitCh rest
    else match getlineSplitCh rest with
      | [] => [[c]]
      | l :: ls => (c :: l) :: ls

def getLines (s : String) : List String := (getlineSplitCh s.data).map List.asString

/-- Model of `content.replace(pos, old.length, new)` at the first occurrence,
or none when `old` does not occur (`find == npos`). -/
def replaceFirst (content oldT newT : String) : Option String :=
  match findSubstr content.data oldT.data with
  | none => none
  | some i =>
    some ((content.data.take i ++ newT.data ++
           content.data.drop (i + oldT.data.length)).asString)

/-- Model of `vector::insert(begin() + k, x)` for `k ≤ length`. -/
def insertAt (k : Nat) (x : α) : List α → List α
  | xs =>
    match k, xs with
    | 0, xs => x :: xs
    | _ + 1, [] => [x]
    | k + 1, y :: ys => y :: insertAt k x ys

/-- The reconstruction loop of the insert-at-line branch: lines joined by
single newline separators, with no terminator after the last line. -/
def joinLines : List String → String
  | [] => ""
  | [l] => l
  | l :: ls => l ++ "\n" ++ joinLines ls

/-- The code-style clamp of the requested line number to `[0, line count]`. -/
def clampLine (n : Int) (len : Nat) : Nat :=
  if n < 0 then 0 else if n > (len : Int) then len else n.toNat

/-- The edit applied to the file content; none exactly when a find/replace
does not find `old_text`. -/
def applyEdit (content : String) : EditOp → Option String
  | .replaceAll t => some t
  | .replaceText o n => replaceFirst content o n
  | .append t => some (content ++ t)
  | .prepend t => some (t ++ content)
  | .insertLine ln t =>
    let lines := getLines content
    some (joinLines (insertAt (clampLine ln lines.length) t lines))

/-- Edit application and write-back, after the confirmation phase. -/
def fileEditApply (path content : String) (op : EditOp) (evs : List Event) :
    ToolResult × List Event :=
  match applyEdit content op with
  | none => (ToolResult.error "Could not find the text to replace in the file", evs)
  | some c2 =>
    (ToolResult.success ("File successfully edited: " ++ path),
     evs ++ [Event.fileWrite path c2])

def fileEditConfirmed (cfg : Config) (resp : Nat → Bool) (path content : String)
    (op : EditOp) : ToolResult × List Event :=
  if cfg.auto_confirm_file_ops then fileEditApply path content op []
  else if resp 0 then fileEditApply path content op [Event.gate true]
  else (ToolResult.error "File edit operation denied by user", [Event.gate false])

/-- Model of `FileEditTool::execute`; `fs` is the read view of the filesystem. -/
def fileEditExecute (cfg : Config) (resp : Nat → Bool) (fs : String → Option String)
    (args : Json) : ToolResult × List Event :=
  match args.getStr "path" with
  | none => (ToolResult.error "Missing or invalid path parameter", [])
  | some path =>
    if containsSub path ".." then
      (ToolResult.error "Path contains forbidden .. sequence", [])
    else match fs path with
      | none => (ToolResult.error ("File does not exist: " ++ path), [])
      | some content =>
        match editOpOf args with
        | none =>
          (ToolResult.error
             "No valid edit operation specified. Use replace_all, old_text+new_text, append, prepend, or insert_at_line+text",
           [])
        | some op => fileEditConfirmed cfg resp path content op

/-! ## Streaming protocol client (ollama_client.cpp) -/

/-- Split a byte sequence into its complete newline-terminated lines
(without the terminator) and the trailing partial line, exactly as the
`while (find('\n'))` loop of `stream_callback` scans the buffer. -/
def splitComplete : List Char → List (List Char) × List Char
  | [] => ([], [])
  | c :: rest =>
    if c = '\n' then ([] :: (splitComplete rest).1, (splitComplete rest).2)
    else match (splitComplete rest).1 with
      | [] => ([], c :: (splitComplete rest).2)
      | l :: ls2 => ((c :: l) :: ls2, (splitComplete rest).2)

/-- What one complete line contributes: empty lines are ignored, a line
that fails to parse is logged and skipped, a parsed record emits its
`message.content` field when present. -/
def emitOf (parse : String → Option Json) (line : List Char) : Option String :=
  if line.isEmpty then none
  else match parse line.asString with
    | none => none
    | some j =>
      match j.lookup "message" with
      | none => none
      | some m =>
        match m.lookup "content" with
        | some (.str s) => some s
        | _ => none

/-- A line is well typed for the C++ code when `message.content`, if both
keys are present, is a string (`get<std::string>` raises otherwise). -/
def contentWellTyped (parse : String → Option Json) (line : List Char) : Bool :=
  match parse line.asString with
  | none => true
  | some j =>
    match j.lookup "message" with
    | none => true
    | some m =>
      match m.lookup "content" with
      | none => true
      | some (.str _) => true
      | some _ => false

/-- One invocation of `stream_callback`: append the chunk to the buffer,
emit every complete line in order, keep the trailing partial line. -/
def streamStep (parse : String → Option Json) (st : List Char × List String)
    (chunk : List Char) : List Char × List String :=
  ((splitComplete (st.1 ++ chunk)).2,
   st.2 ++ (splitComplete (st.1 ++ chunk)).1.filterMap (emitOf parse))

/-- Run the reassembler over a sequence of network read chunks, starting
from an empty buffer; returns the final buffer and all emitted fragments
in emission order. -/
def streamRun (parse : String → Option Json) (chunks : List (List Char)) :
    List Char × List String :=
  chunks.foldl (streamStep parse) ([], [])

/-! ## Tool-call extraction and the non-streaming chat (ollama_client.cpp) -/

/-- Model of `ToolCall` from ollama_client.hpp. -/
structure ToolCall where
  id : String
  name : String
  arguments : Json
deriving Repr

/-- Model of `ChatMessage` from ollama_client.hpp. -/
structure ChatMessage where
  role : String
  content : String
  name : String
  tool_calls : List ToolCall
deriving Repr

/-- Model of `ChatMessage::make_tool_response`. -/
def makeToolResponse (content name : String) : ChatMessage :=
  ⟨"tool", content, name, []⟩

/-- The argument normalization of `parse_tool_calls`: a string payload is
parsed as JSON, falling back to the raw string on a parse error; a
structured payload is kept as is. -/
def normalizeArguments (parse : String → Option Json) : Json → Json
  | .str s =>
    match parse s with
    | some v => v
    | none => .str s
  | j => j

/-- Model of `j[k].get<std::string>()` behind a `contains` check: absent gives
none, a non-string raises (modelled as `Except.error`). -/
def getFieldString (j : Json) (k : String) : Except String (Option String) :=
  match j.lookup k with
  | none => .ok none
  | some (.str s) => .ok (some s)
  | some _ => .error "json type error"

/-- The body of the `parse_tool_calls` loop for one tool-call entry. -/
def parseToolCallEntry (parse : String → Option Json) (e : Json) :
    Except String ToolCall := do
  let idOpt ← getFieldString e "id"
  let tc : ToolCall := ⟨idOpt.getD "", "", Json.null⟩
  match e.lookup "function" with
  | none => pure tc
  | some fn => do
    let nameOpt ← getFieldString fn "name"
    let argsVal :=
      match fn.lookup "arguments" with
      | none => Json.null
      | some a => normalizeArguments parse a
    pure { tc with name := nameOpt.getD "", arguments := argsVal }

/-- Model of `parse_tool_calls` over the message object. -/
def parseToolCalls (parse : String → Option Json) (msg : Json) :
    Except String (List ToolCall) :=
  match msg.lookup "tool_calls" with
  | some (.arr entries) => entries.mapM (parseToolCallEntry parse)
  | _ => .ok []

/-- The outcome of the HTTP transport for the non-streaming chat request. -/
inductive TransportOutcome where
  | curlInitFail
  | requestFail
  | ok (body : String)
deriving Repr

/-- The empty assistant message the client degrades to on failure. -/
def emptyAssistant : ChatMessage := ⟨"assistant", "", "", []⟩

/-- Model of `OllamaClient::Impl::chat` in non-streaming mode, from the transport
outcome onward (payload construction does not affect the result shape). -/
def chatModel (parse : String → Option Json) (outcome : TransportOutcome) :
    Except String ChatMessage :=
  match outcome with
  | .curlInitFail => .ok emptyAssistant
  | .requestFail => .ok emptyAssistant
  | .ok body =>
    match parse body with
    | none => .ok emptyAssistant
    | some j =>
      match j.lookup "message" with
      | none => .ok emptyAssistant
      | some msg => do
        let content ←
          (match msg.lookup "content" with
           | none => Except.ok ""
           | some (.str s) => Except.ok s
           | some _ => Except.error "json type error")
        let tcs ← parseToolCalls parse msg
        Except.ok ⟨"assistant", content, "", tcs⟩

/-! ## Tool registry and the orchestrator tool round (tools_base.cpp, main.cpp) -/

/-- The registry: names mapped to execute functions (`ToolManager::tools`). -/
def Registry := List (String × (Json → ToolResult))

/-- Model of `ToolManager::has_tool`. -/
def hasTool (r : Registry) (n : String) : Bool :=
  (List.find? (fun p => p.1 == n) r).isSome

/-- Model of `ToolManager::execute_tool`. -/
def executeTool (r : Registry) (n : String) (args : Json) : ToolResult :=
  match List.find? (fun p => p.1 == n) r with
  | none => ToolResult.error ("Tool not found: " ++ n)
  | some p => p.2 args

/-- The transcript message appended for one executed tool call: role tool,
the tool name, and the result content on success or the error message on
failure (`ChatMessage::make_tool_response` in the main loop). -/
def toolCallMessage (r : Registry) (tc : ToolCall) : ChatMessage :=
  let result := executeTool r tc.name tc.arguments
  makeToolResponse (if result.is_success then result.content else result.error_message)
    tc.name

/-- The tool-round loop of `main`: for each requested tool call in request
order, skip it when unregistered, otherwise execute it and append one
tool message to the conversation. -/
def processToolCalls (r : Registry) (conv : List ChatMessage) (tcs : List ToolCall) :
    List ChatMessage :=
  tcs.foldl
    (fun acc tc =>
      if hasTool r tc.name then acc ++ [toolCallMessage r tc] else acc)
    conv

/-! ## Theorems -/

/-- C4.  When an assistant response carries tool calls, the orchestrator
processes them sequentially in request order: the prior transcript is
preserved as a prefix, and for each requested tool call whose registration
check passes, exactly one tool-role message is appended (in the order the
calls were requested), whose name is the tool name and whose content is
the execution result content on success or its error message on failure;
a call that fails the registration check appends nothing. -/
theorem toolcalls_processed_in_order (r : Registry) (conv : List ChatMessage)
    (tcs : List ToolCall) :
    processToolCalls r conv tcs =
      conv ++ tcs.filterMap
        (fun tc => if hasTool r tc.name then some (toolCallMessage r tc) else none) ∧
    (∀ tc, hasTool r tc.name = true →
      toolCallMessage r tc =
        { role := "tool",
          content :=
            if (executeTool r tc.name tc.arguments).is_success then
              (executeTool r tc.name tc.arguments).content
            else (executeTool r tc.name tc.arguments).error_message,
          name := tc.name, tool_calls := [] }) := by
  constructor
  · induction tcs generalizing conv with
    | nil => simp [processToolCalls]
    | cons tc tcs ih =>
      simp only [processToolCalls, List.foldl_cons, List.filterMap_cons]
      cases h : hasTool r tc.name with
      | false =>
        simp only [h, Bool.false_eq_true, if_false]
        have hrec := ih conv
        unfold processToolCalls at hrec
        rw [hrec]
      | true =>
        simp only [h, if_true]
        have hrec := ih (conv ++ [toolCallMessage r tc])
        unfold processToolCalls at hrec
        rw [hrec]
        simp
  · intro tc _
    rfl

/-- Witness for C4: a registry holding one tool, a round requesting that
tool and an unregistered one; exactly one tool message is appended, for
the registered call, and its shape follows the content law. -/
theorem toolcalls_processed_in_order_witness :
    processToolCalls [("calc", fun _ => ToolResult.success "4")] []
        [⟨"", "calc", Json.null⟩, ⟨"", "missing", Json.null⟩]
      = [⟨"tool", "4", "calc", []⟩] ∧
    toolCallMessage [("calc", fun _ => ToolResult.success "4")]
        ⟨"", "calc", Json.null⟩ = ⟨"tool", "4", "calc", []⟩ := by
  have h := toolcalls_processed_in_order
    [("calc", fun _ => ToolResult.success "4")] []
    [⟨"", "calc", Json.null⟩, ⟨"", "missing", Json.null⟩]
  refine ⟨?_, ?_⟩
  · rw [h.1]; rfl
  · exact (h.2 ⟨"", "calc", Json.null⟩ rfl).trans (by rfl)

/-- C5.  On transport failure (curl initialization failure or request
failure) or on a response body that does not parse as a JSON object
containing a `message` field, the non-streaming chat returns an assistant
message with empty content and an empty tool-call list, and no exception
escapes the client boundary. -/
theorem chat_transport_failure_empty_message (parse : String → Option Json)
    (outcome : TransportOutcome)
    (h : outcome = .curlInitFail ∨ outcome = .requestFail ∨
         ∃ body, outcome = .ok body ∧
           (parse body = none ∨
            ∃ j, parse body = some j ∧ j.lookup "message" = none)) :
    chatModel parse outcome = .ok emptyAssistant ∧
    emptyAssistant.role = "assistant" ∧ emptyAssistant.content = "" ∧
    emptyAssistant.tool_calls = [] := by
  refine ⟨?_, rfl, rfl, rfl⟩
  rcases h with h | h | ⟨body, rfl, h⟩
  · subst h; rfl
  · subst h; rfl
  · rcases h with h | ⟨j, hj, hm⟩
    · simp [chatModel, h]
    · simp [chatModel, hj, hm]

/-- Witness for C5 at a concrete failed request. -/
theorem chat_transport_failure_empty_message_witness :
    chatModel (fun _ => none) .requestFail = .ok emptyAssistant :=
  (chat_transport_failure_empty_message (fun _ => none) .requestFail
    (Or.inr (Or.inl rfl))).1

/-- C3.  For a tool-call entry whose `function.arguments` field is present,
the extracted ToolCall normalizes the field: a JSON string that parses
yields the parsed value, a JSON string that fails to parse is kept as the
original string, and an already-structured value is kept unchanged. -/
theorem toolcall_arguments_roundtrip (parse : String → Option Json)
    (e fn a : Json) (tc : ToolCall)
    (hfn : e.lookup "function" = some fn)
    (ha : fn.lookup "arguments" = some a)
    (hok : parseToolCallEntry parse e = .ok tc) :
    tc.arguments = normalizeArguments parse a ∧
    (∀ s v, a = .str s → parse s = some v → tc.arguments = v) ∧
    (∀ s, a = .str s → parse s = none → tc.arguments = .str s) ∧
    ((∀ s, a ≠ .str s) → tc.arguments = a) := by
  have hargs : tc.arguments = normalizeArguments parse a := by
    unfold parseToolCallEntry at hok
    rcases hid : getFieldString e "id" with m | idOpt
    · simp [hid, Bind.bind, Except.bind] at hok
    · rcases hname : getFieldString fn "name" with m | nameOpt
      · simp [hid, hfn, hname, Bind.bind, Except.bind] at hok
      · simp [hid, hfn, hname, ha, Bind.bind, Except.bind, Pure.pure, Except.pure] at hok
        rw [← hok]
  refine ⟨hargs, ?_, ?_, ?_⟩
  · intro s v hs hp
    subst hs
    rw [hargs]
    simp [normalizeArguments, hp]
  · intro s hs hp
    subst hs
    rw [hargs]
    simp [normalizeArguments, hp]
  · intro hns
    rw [hargs]
    cases a with
    | str s => exact absurd rfl (hns s)
    | null => rfl
    | bool b => rfl
    | num n => rfl
    | arr xs => rfl
    | obj kvs => rfl

/-- Witness for C3: a concrete entry whose string arguments parse to a
structured value, normalized to the parsed value. -/
theorem toolcall_arguments_roundtrip_witness :
    parseToolCallEntry (fun s => if s = "42" then some (Json.num 42) else none)
      (Json.obj [("function",
        Json.obj [("name", Json.str "calculator"), ("arguments", Json.str "42")])])
      = .ok ⟨"", "calculator", Json.num 42⟩ ∧
    (⟨"", "calculator", Json.num 42⟩ : ToolCall).arguments = Json.num 42 :=
  ⟨rfl,
   (toolcall_arguments_roundtrip
      (fun s => if s = "42" then some (Json.num 42) else none)
      (Json.obj [("function",
        Json.obj [("name", Json.str "calculator"), ("arguments", Json.str "42")])])
      (Json.obj [("name", Json.str "calculator"), ("arguments", Json.str "42")])
      (Json.str "42") ⟨"", "calculator", Json.num 42⟩ rfl rfl rfl).2.1
     "42" (Json.num 42) rfl rfl⟩

/-- C6.  A find/replace edit on an existing file that does not contain
`old_text` returns an error ToolResult and performs no file write (the
error is returned before any write occurs). -/
theorem fileedit_replace_missing_oldtext_no_write (cfg : Config)
    (resp : Nat → Bool) (fs : String → Option String) (args : Json)
    (path content o n : String)
    (hp : args.getStr "path" = some path)
    (hdot : containsSub path ".." = false)
    (hf : fs path = some content)
    (hra : args.getStr "replace_all" = none)
    (ho : args.getStr "old_text" = some o)
    (hn : args.getStr "new_text" = some n)
    (hfind : findSubstr content.data o.data = none) :
    (fileEditExecute cfg resp fs args).1.is_success = false ∧
    countWrites (fileEditExecute cfg resp fs args).2 = 0 := by
  have hop : editOpOf args = some (.replaceText o n) := by
    simp [editOpOf, hra, ho, hn]
  have hmain : fileEditExecute cfg resp fs args =
      fileEditConfirmed cfg resp path content (.replaceText o n) := by
    simp [fileEditExecute, hp, hdot, hf, hop]
  rw [hmain]
  have happ : applyEdit content (.replaceText o n) = none := by
    simp [applyEdit, replaceFirst, hfind]
  unfold fileEditConfirmed
  by_cases h1 : cfg.auto_confirm_file_ops = true
  · simp [h1, fileEditApply, happ, countWrites, ToolResult.error]
  · by_cases h2 : resp 0 = true
    · simp [h1, h2, fileEditApply, happ, countWrites, Event.isWrite, ToolResult.error]
    · simp [h1, h2, countWrites, Event.isWrite, ToolResult.error]

/-- Witness for C6: replacing a string absent from a one-line file. -/
theorem fileedit_replace_missing_oldtext_no_write_witness :
    (fileEditExecute ⟨false, false, false, true⟩ (fun _ => true)
        (fun p => if p = "f" then some "hello" else none)
        (Json.obj [("path", Json.str "f"), ("old_text", Json.str "xyz"),
                   ("new_text", Json.str "abc")])).1.is_success = false ∧
    countWrites (fileEditExecute ⟨false, false, false, true⟩ (fun _ => true)
        (fun p => if p = "f" then some "hello" else none)
        (Json.obj [("path", Json.str "f"), ("old_text", Json.str "xyz"),
                   ("new_text", Json.str "abc")])).2 = 0 :=
  fileedit_replace_missing_oldtext_no_write ⟨false, false, false, true⟩
    (fun _ => true) (fun p => if p = "f" then some "hello" else none)
    (Json.obj [("path", Json.str "f"), ("old_text", Json.str "xyz"),
               ("new_text", Json.str "abc")])
    "f" "hello" "xyz" "abc" rfl rfl rfl rfl rfl rfl rfl

/-- Helper: the full evaluation of an insert-at-line edit under
auto-confirmed file operations. -/
theorem fileEditExecute_insert_eq (cfg : Config) (resp : Nat → Bool)
    (fs : String → Option String) (args : Json)
    (path content : String) (ln : Int) (t : String)
    (hp : args.getStr "path" = some path)
    (hdot : containsSub path ".." = false)
    (hf : fs path = some content)
    (hra : args.getStr "replace_all" = none)
    (hot : args.getStr "old_text" = none)
    (hap : args.getStr "append" = none)
    (hpre : args.getStr "prepend" = none)
    (hln : args.getInt "insert_at_line" = some ln)
    (ht : args.getStr "text" = some t)
    (hauto : cfg.auto_confirm_file_ops = true) :
    fileEditExecute cfg resp fs args =
      (ToolResult.success ("File successfully edited: " ++ path),
       [Event.fileWrite path
          (joinLines (insertAt (clampLine ln (getLines content).length) t
            (getLines content)))]) := by
  have hop : editOpOf args = some (.insertLine ln t) := by
    simp [editOpOf, hra, hot, hap, hpre, hln, ht]
  simp [fileEditExecute, hp, hdot, hf, hop, fileEditConfirmed, hauto,
        fileEditApply, applyEdit]

/-- Helper: the code-style two-branch clamp equals the mathematical clamp
of the requested line number to the interval `[0, line count]`. -/
theorem clampLine_eq (n : Int) (len : Nat) :
    clampLine n len = (max 0 (min n (len : Int))).toNat := by
  unfold clampLine
  split_ifs <;> omega

/-- C7.  An insert-at-line edit inserts at the requested 0-based line
number clamped to `[0, number of lines]`: the written content is the file
lines with the text inserted at index `max 0 (min line_number #lines)`. -/
theorem fileedit_insert_line_clamped (cfg : Config) (resp : Nat → Bool)
    (fs : String → Option String) (args : Json)
    (path content : String) (ln : Int) (t : String)
    (hp : args.getStr "path" = some path)
    (hdot : containsSub path ".." = false)
    (hf : fs path = some content)
    (hra : args.getStr "replace_all" = none)
    (hot : args.getStr "old_text" = none)
    (hap : args.getStr "append" = none)
    (hpre : args.getStr "prepend" = none)
    (hln : args.getInt "insert_at_line" = some ln)
    (ht : args.getStr "text" = some t)
    (hauto : cfg.auto_confirm_file_ops = true) :
    fileEditExecute cfg resp fs args =
      (ToolResult.success ("File successfully edited: " ++ path),
       [Event.fileWrite path
          (joinLines (insertAt ((max 0 (min ln ((getLines content).length : Int))).toNat)
            t (getLines content)))]) := by
  rw [fileEditExecute_insert_eq cfg resp fs args path content ln t
        hp hdot hf hra hot hap hpre hln ht hauto, clampLine_eq]

/-- Witness for C7: `line_number = -5` on a 3-line file prepends, and
`line_number = 99` on the same file appends. -/
theorem fileedit_insert_line_clamped_witness :
    fileEditExecute ⟨false, false, false, true⟩ (fun _ => false)
        (fun p => if p = "f" then some "a\nb\nc" else none)
        (Json.obj [("path", Json.str "f"), ("insert_at_line", Json.num (-5)),
                   ("text", Json.str "x")])
      = (ToolResult.success "File successfully edited: f",
         [Event.fileWrite "f" "x\na\nb\nc"]) ∧
    fileEditExecute ⟨false, false, false, true⟩ (fun _ => false)
        (fun p => if p = "f" then some "a\nb\nc" else none)
        (Json.obj [("path", Json.str "f"), ("insert_at_line", Json.num 99),
                   ("text", Json.str "x")])
      = (ToolResult.success "File successfully edited: f",
         [Event.fileWrite "f" "a\nb\nc\nx"]) :=
  ⟨(fileedit_insert_line_clamped ⟨false, false, false, true⟩ (fun _ => false)
      (fun p => if p = "f" then some "a\nb\nc" else none)
      (Json.obj [("path", Json.str "f"), ("insert_at_line", Json.num (-5)),
                 ("text", Json.str "x")])
      "f" "a\nb\nc" (-5) "x" rfl rfl rfl rfl rfl rfl rfl rfl rfl rfl).trans
     (by rfl),
   (fileedit_insert_line_clamped ⟨false, false, false, true⟩ (fun _ => false)
      (fun p => if p = "f" then some "a\nb\nc" else none)
      (Json.obj [("path", Json.str "f"), ("insert_at_line", Json.num 99),
                 ("text", Json.str "x")])
      "f" "a\nb\nc" 99 "x" rfl rfl rfl rfl rfl rfl rfl rfl rfl rfl).trans
     (by rfl)⟩

/-- C8.  Under the relevant auto-confirm flag and with no blocklist match,
a tool execution never invokes the Confirmation Gate: Shell and Bash under
auto-confirm-shell, FileWrite and FileEdit under auto-confirm-file-ops
(the file tools have no blocklist, so the condition is vacuous there). -/
theorem auto_confirm_no_gate :
    (∀ (cfg : Config) (resp : Nat → Bool) (runOut : String → Int → String)
       (args : Json) (cmd : String),
       cfg.auto_confirm_shell = true →
       args.getStr "command" = some cmd →
       shellBlocked cmd = none →
       countGates (shellExecute cfg resp runOut args).2 = 0) ∧
    (∀ (cfg : Config) (resp : Nat → Bool) (runBash : String → Int → String)
       (args : Json) (cmd : String),
       cfg.auto_confirm_shell = true →
       args.getStr "command" = some cmd →
       bashBlocked (bashCommandOf args cmd) = none →
       countGates (bashExecute cfg resp runBash args).2 = 0) ∧
    (∀ (cfg : Config) (resp : Nat → Bool) (args : Json),
       cfg.auto_confirm_file_ops = true →
       countGates (fileWriteExecute cfg resp args).2 = 0) ∧
    (∀ (cfg : Config) (resp : Nat → Bool) (fs : String → Option String)
       (args : Json),
       cfg.auto_confirm_file_ops = true →
       countGates (fileEditExecute cfg resp fs args).2 = 0) := by
  refine ⟨?_, ?_, ?_, ?_⟩
  · intro cfg resp runOut args cmd hauto hcmd hblock
    have hnone : (if cfg.ignore_shell_safety then none else shellBlocked cmd) = none := by
      cases cfg.ignore_shell_safety <;> simp [hblock]
    simp [shellExecute, hcmd, hnone, shellConfirm, hauto, shellRun, countGates,
          Event.isGate]
  · intro cfg resp runBash args cmd hauto hcmd hblock
    have hnone : (if cfg.ignore_shell_safety then none
                  else bashBlocked (bashCommandOf args cmd)) = none := by
      cases cfg.ignore_shell_safety <;> simp [hblock]
    simp [bashExecute, hcmd, hnone, bashConfirm, hauto, bashRun, countGates,
          Event.isGate]
  · intro cfg resp args hauto
    unfold fileWriteExecute
    cases hp : args.getStr "path" with
    | none => simp [countGates]
    | some path =>
      cases hc : args.getStr "content" with
      | none => simp [countGates]
      | some content =>
        by_cases hdot : containsSub path ".." = true
        · simp [hdot, countGates]
        · simp [hdot, hauto, countGates, Event.isGate]
  · intro cfg resp fs args hauto
    unfold fileEditExecute
    cases hp : args.getStr "path" with
    | none => simp [countGates]
    | some path =>
      by_cases hdot : containsSub path ".." = true
      · simp [hdot, countGates]
      · cases hf : fs path with
        | none => simp [hdot, hf, countGates]
        | some content =>
          cases hop : editOpOf args with
          | none => simp [hdot, hf, hop, countGates]
          | some op =>
            simp only [hdot, hf, hop]
            unfold fileEditConfirmed
            simp only [hauto, if_true]
            unfold fileEditApply
            cases happ : applyEdit content op <;>
              simp [countGates, Event.isGate]

/-- Witness for C8: a benign shell command under auto-confirm, a benign
bash command under auto-confirm, and auto-confirmed file write and edit. -/
theorem auto_confirm_no_gate_witness :
    countGates (shellExecute ⟨false, false, true, false⟩ (fun _ => false)
        (fun _ _ => "") (Json.obj [("command", Json.str "echo hi")])).2 = 0 ∧
    countGates (bashExecute ⟨false, false, true, false⟩ (fun _ => false)
        (fun _ _ => "") (Json.obj [("command", Json.str "ls")])).2 = 0 ∧
    countGates (fileWriteExecute ⟨false, false, false, true⟩ (fun _ => false)
        (Json.obj [("path", Json.str "f"), ("content", Json.str "hi")])).2 = 0 ∧
    countGates (fileEditExecute ⟨false, false, false, true⟩ (fun _ => false)
        (fun _ => some "a") (Json.obj [("path", Json.str "f"),
          ("append", Json.str "b")])).2 = 0 :=
  ⟨auto_confirm_no_gate.1 ⟨false, false, true, false⟩ (fun _ => false)
     (fun _ _ => "") (Json.obj [("command", Json.str "echo hi")]) "echo hi"
     rfl rfl (by decide),
   auto_confirm_no_gate.2.1 ⟨false, false, true, false⟩ (fun _ => false)
     (fun _ _ => "") (Json.obj [("command", Json.str "ls")]) "ls"
     rfl rfl (by decide),
   auto_confirm_no_gate.2.2.1 ⟨false, false, false, true⟩ (fun _ => false)
     (Json.obj [("path", Json.str "f"), ("content", Json.str "hi")]) rfl,
   auto_confirm_no_gate.2.2.2 ⟨false, false, false, true⟩ (fun _ => false)
     (fun _ => some "a") (Json.obj [("path", Json.str "f"),
       ("append", Json.str "b")]) rfl⟩

/-- Helper: converting a character list to a string preserves characters. -/
theorem data_asString (l : List Char) : (List.asString l).data = l := rfl

/-- Helper: converting a character list to a string preserves length. -/
theorem length_asString (l : List Char) : (List.asString l).length = l.length := rfl

/-- C9.  Every command line the Calculator spawns embeds, between its
single quotes, an expression of at most 500 characters drawn entirely from
the fixed allowed set; in particular the expression never contains a
single quote (39), backtick (96), dollar (36), or semicolon (59), so it
cannot terminate the quoting or inject shell syntax. -/
theorem calc_spawn_command_sanitized (cfg : Config) (resp : Nat → Bool)
    (bcOut : String → String) (args : Json) (cmd : String)
    (h : Event.spawn cmd ∈ (calcExecute cfg resp bcOut args).2) :
    ∃ e : String,
      cmd = "echo " ++ squote ++ e ++ squote ++ " | BC_LINE_LENGTH=0 bc -l" ∧
      e.length ≤ 500 ∧
      (∀ c ∈ e.data, isAllowedCalcChar c = true) ∧
      Char.ofNat 39 ∉ e.data ∧ Char.ofNat 96 ∉ e.data ∧
      Char.ofNat 36 ∉ e.data ∧ Char.ofNat 59 ∉ e.data := by
  cases hexpr : args.getStr "expression" with
  | none => simp [calcExecute, hexpr] at h
  | some expr =>
    have hcmd : cmd = "echo " ++ squote ++ strTake (calcSanitize expr) 500 ++
        squote ++ " | BC_LINE_LENGTH=0 bc -l" := by
      rcases hbl : (if cfg.ignore_calc_safety = true then none
                    else calcBlocked (calcSanitize expr)) with _ | pat
      · simp only [calcExecute, hexpr, hbl, calcRun] at h
        simpa using h
      · cases hr : resp 0 with
        | false =>
          simp [calcExecute, hexpr, hbl, hr] at h
        | true =>
          simp only [calcExecute, hexpr, hbl, hr, if_true, calcRun] at h
          simpa using h
    have hmem : ∀ c ∈ (strTake (calcSanitize expr) 500).data,
        isAllowedCalcChar c = true := by
      intro c hc
      rw [strTake, data_asString] at hc
      have hc2 : c ∈ (calcSanitize expr).data := List.mem_of_mem_take hc
      rw [calcSanitize, data_asString] at hc2
      exact (List.mem_filter.mp hc2).2
    refine ⟨strTake (calcSanitize expr) 500, hcmd, ?_, hmem, ?_, ?_, ?_, ?_⟩
    · rw [strTake, length_asString]
      have := List.length_take 500 (calcSanitize expr).data
      omega
    · intro hc
      exact absurd (hmem _ hc) (by decide)
    · intro hc
      exact absurd (hmem _ hc) (by decide)
    · intro hc
      exact absurd (hmem _ hc) (by decide)
    · intro hc
      exact absurd (hmem _ hc) (by decide)

/-- Witness for C9: the command spawned for the expression `2+2`. -/
theorem calc_spawn_command_sanitized_witness :
    ∃ e : String,
      ("echo " ++ squote ++ "2+2" ++ squote ++ " | BC_LINE_LENGTH=0 bc -l") =
        "echo " ++ squote ++ e ++ squote ++ " | BC_LINE_LENGTH=0 bc -l" ∧
      e.length ≤ 500 ∧
      (∀ c ∈ e.data, isAllowedCalcChar c = true) ∧
      Char.ofNat 39 ∉ e.data ∧ Char.ofNat 96 ∉ e.data ∧
      Char.ofNat 36 ∉ e.data ∧ Char.ofNat 59 ∉ e.data :=
  calc_spawn_command_sanitized ⟨true, false, false, false⟩ (fun _ => true)
    (fun _ => "4") (Json.obj [("expression", Json.str "2+2")])
    ("echo " ++ squote ++ "2+2" ++ squote ++ " | BC_LINE_LENGTH=0 bc -l")
    (by decide)

/-- C1 counterexample: a Shell execution whose command matches the
blocklist, with safety not ignored and auto-confirm off, invokes the
Confirmation Gate twice (safety confirmation, then the unconditional
confirmation) before the single side effect, refuting that the Gate is
invoked exactly once before side effects occur. -/
theorem blocklist_gate_exactly_once_refuted :
    gatesBeforeEffect (shellExecute ⟨false, false, false, false⟩ (fun _ => true)
        (fun _ _ => "") (Json.obj [("command", Json.str "rm")])).2 = 2 ∧
    (shellExecute ⟨false, false, false, false⟩ (fun _ => true) (fun _ _ => "")
        (Json.obj [("command", Json.str "rm")])).2
      = [Event.gate true, Event.gate true, Event.spawn "rm 2>&1"] ∧
    ¬(2 = 1) :=
  ⟨rfl, rfl, by decide⟩

/-- C1 (amended).  For Calculator, Shell and Bash, when the input matches
the blocklist and the corresponding ignore-safety flag is false, the
Confirmation Gate is invoked at least once before any side effect (the
first event of the execution is the blocklist gate), and denial of that
gate returns an error ToolResult with zero side effects.  The gate count
is exactly one for the Calculator; for Shell and Bash it is one when the
blocklist gate is denied or auto-confirm-shell is set, and two otherwise,
because the unconditional confirmation follows the blocklist one. -/
theorem blocklist_gate_precedes_side_effects :
    (∀ (cfg : Config) (resp : Nat → Bool) (bcOut : String → String)
       (args : Json) (expr pat : String),
       cfg.ignore_calc_safety = false →
       args.getStr "expression" = some expr →
       calcBlocked (calcSanitize expr) = some pat →
       ((calcExecute cfg resp bcOut args).2.head? = some (Event.gate (resp 0)) ∧
        countGates (calcExecute cfg resp bcOut args).2 = 1 ∧
        (resp 0 = false →
          (calcExecute cfg resp bcOut args).1.is_success = false ∧
          (calcExecute cfg resp bcOut args).2 = [Event.gate false]))) ∧
    (∀ (cfg : Config) (resp : Nat → Bool) (runOut : String → Int → String)
       (args : Json) (cmd pat : String),
       cfg.ignore_shell_safety = false →
       args.getStr "command" = some cmd →
       shellBlocked cmd = some pat →
       ((shellExecute cfg resp runOut args).2.head? = some (Event.gate (resp 0)) ∧
        countGates (shellExecute cfg resp runOut args).2 =
          (if resp 0 = false then 1
           else if cfg.auto_confirm_shell = true then 1 else 2) ∧
        (resp 0 = false →
          (shellExecute cfg resp runOut args).1.is_success = false ∧
          (shellExecute cfg resp runOut args).2 = [Event.gate false]))) ∧
    (∀ (cfg : Config) (resp : Nat → Bool) (runBash : String → Int → String)
       (args : Json) (cmd pat : String),
       cfg.ignore_shell_safety = false →
       args.getStr "command" = some cmd →
       bashBlocked (bashCommandOf args cmd) = some pat →
       ((bashExecute cfg resp runBash args).2.head? = some (Event.gate (resp 0)) ∧
        countGates (bashExecute cfg resp runBash args).2 =
          (if resp 0 = false then 1
           else if cfg.auto_confirm_shell = true then 1 else 2) ∧
        (resp 0 = false →
          (bashExecute cfg resp runBash args).1.is_success = false ∧
          (bashExecute cfg resp runBash args).2 = [Event.gate false]))) := by
  refine ⟨?_, ?_, ?_⟩
  · intro cfg resp bcOut args expr pat hign hexpr hbl
    have hblif : (if cfg.ignore_calc_safety = true then none
                  else calcBlocked (calcSanitize expr)) = some pat := by
      rw [hign]; simpa using hbl
    cases hr : resp 0 with
    | false =>
      refine ⟨?_, ?_, fun _ => ⟨?_, ?_⟩⟩ <;>
        simp [calcExecute, hexpr, hblif, hr, countGates, Event.isGate,
              ToolResult.error]
    | true =>
      refine ⟨?_, ?_, fun hcontra => by simp [hr] at hcontra⟩
      · simp [calcExecute, hexpr, hblif, hr, calcRun]
      · simp [calcExecute, hexpr, hblif, hr, calcRun, countGates, Event.isGate]
  · intro cfg resp runOut args cmd pat hign hexpr hbl
    have hblif : (if cfg.ignore_shell_safety = true then none
                  else shellBlocked cmd) = some pat := by
      rw [hign]; simpa using hbl
    cases hr : resp 0 with
    | false =>
      refine ⟨?_, ?_, fun _ => ⟨?_, ?_⟩⟩ <;>
        simp [shellExecute, hexpr, hblif, hr, countGates, Event.isGate,
              ToolResult.error]
    | true =>
      refine ⟨?_, ?_, fun hcontra => by simp [hr] at hcontra⟩
      · cases hau : cfg.auto_confirm_shell <;> cases hr1 : resp 1 <;>
          simp [shellExecute, hexpr, hblif, hr, shellConfirm, shellRun, hau, hr1]
      · cases hau : cfg.auto_confirm_shell <;> cases hr1 : resp 1 <;>
          simp [shellExecute, hexpr, hblif, hr, shellConfirm, shellRun, hau, hr1,
                countGates, Event.isGate]
  · intro cfg resp runBash args cmd pat hign hexpr hbl
    have hblif : (if cfg.ignore_shell_safety = true then none
                  else bashBlocked (bashCommandOf args cmd)) = some pat := by
      rw [hign]; simpa using hbl
    cases hr : resp 0 with
    | false =>
      refine ⟨?_, ?_, fun _ => ⟨?_, ?_⟩⟩ <;>
        simp [bashExecute, hexpr, hblif, hr, countGates, Event.isGate,
              ToolResult.error]
    | true =>
      refine ⟨?_, ?_, fun hcontra => by simp [hr] at hcontra⟩
      · cases hau : cfg.auto_confirm_shell <;> cases hr1 : resp 1 <;>
          simp [bashExecute, hexpr, hblif, hr, bashConfirm, bashRun, hau, hr1]
      · cases hau : cfg.auto_confirm_shell <;> cases hr1 : resp 1 <;>
          simp [bashExecute, hexpr, hblif, hr, bashConfirm, bashRun, hau, hr1,
                countGates, Event.isGate]

/-- Witness for amended C1: denial of the blocklist gate on concrete
blocklisted inputs leaves each of the three tools with an error result and
a gate event as the only trace entry. -/
theorem blocklist_gate_precedes_side_effects_witness :
    ((calcExecute ⟨false, false, false, false⟩ (fun _ => false) (fun _ => "")
        (Json.obj [("expression", Json.str "rm")])).1.is_success = false ∧
     (calcExecute ⟨false, false, false, false⟩ (fun _ => false) (fun _ => "")
        (Json.obj [("expression", Json.str "rm")])).2 = [Event.gate false]) ∧
    ((shellExecute ⟨false, false, false, false⟩ (fun _ => false) (fun _ _ => "")
        (Json.obj [("command", Json.str "rm x")])).1.is_success = false ∧
     (shellExecute ⟨false, false, false, false⟩ (fun _ => false) (fun _ _ => "")
        (Json.obj [("command", Json.str "rm x")])).2 = [Event.gate false]) ∧
    ((bashExecute ⟨false, false, false, false⟩ (fun _ => false) (fun _ _ => "")
        (Json.obj [("command", Json.str "rm -rf /tmp/x")])).1.is_success = false ∧
     (bashExecute ⟨false, false, false, false⟩ (fun _ => false) (fun _ _ => "")
        (Json.obj [("command", Json.str "rm -rf /tmp/x")])).2 = [Event.gate false]) :=
  ⟨(blocklist_gate_precedes_side_effects.1 ⟨false, false, false, false⟩
      (fun _ => false) (fun _ => "") (Json.obj [("expression", Json.str "rm")])
      "rm" "rm" rfl rfl (by decide)).2.2 rfl,
   (blocklist_gate_precedes_side_effects.2.1 ⟨false, false, false, false⟩
      (fun _ => false) (fun _ _ => "") (Json.obj [("command", Json.str "rm x")])
      "rm x" "rm" rfl rfl (by decide)).2.2 rfl,
   (blocklist_gate_precedes_side_effects.2.2 ⟨false, false, false, false⟩
      (fun _ => false) (fun _ _ => "")
      (Json.obj [("command", Json.str "rm -rf /tmp/x")])
      "rm -rf /tmp/x" "rm -rf" rfl rfl (by decide)).2.2 rfl⟩

/-- Helper: complete-line splitting distributes over append — the
complete lines of `x ++ y` are those of `x` followed by those of the
remainder of `x` continued into `y`, and the final remainder comes from
that continuation. -/
theorem splitComplete_append (x y : List Char) :
    splitComplete (x ++ y) =
      ((splitComplete x).1 ++ (splitComplete ((splitComplete x).2 ++ y)).1,
       (splitComplete ((splitComplete x).2 ++ y)).2) := by
  induction x with
  | nil => simp [splitComplete]
  | cons c x ih =>
    by_cases hc : c = '\n'
    · subst hc
      simp only [List.cons_append, splitComplete, List.append_eq]
      simp [ih]
    · simp only [List.cons_append, splitComplete, if_neg hc, List.append_eq]
      rw [ih]
      cases h1 : (splitComplete x).1 with
      | nil =>
        simp only [h1, List.nil_append]
        cases h2 : (splitComplete ((splitComplete x).2 ++ y)).1 with
        | nil => simp [splitComplete, if_neg hc, h2]
        | cons a as => simp [splitComplete, if_neg hc, h2]
      | cons a as =>
        simp [h1]

/-- Helper: running the reassembler from an arbitrary buffer and emission
state over a nonempty chunk sequence is the same as splitting the buffered
prefix continued by all the chunk bytes. -/
theorem streamRun_from (parse : String → Option Json) (c : List Char)
    (chunks : List (List Char)) (b : List Char) (a : List String) :
    List.foldl (streamStep parse) (b, a) (c :: chunks) =
      ((splitComplete (b ++ (c :: chunks).flatten)).2,
       a ++ (splitComplete (b ++ (c :: chunks).flatten)).1.filterMap (emitOf parse)) := by
  induction chunks generalizing b a c with
  | nil => simp [streamStep]
  | cons c2 cs ih =>
    rw [List.foldl_cons]
    have hstep : streamStep parse (b, a) c =
        ((splitComplete (b ++ c)).2,
         a ++ (splitComplete (b ++ c)).1.filterMap (emitOf parse)) := rfl
    rw [hstep, ih]
    have harr : b ++ (c :: c2 :: cs).flatten = (b ++ c) ++ (c2 :: cs).flatten := by
      rw [List.flatten_cons, ← List.append_assoc]
    rw [harr, splitComplete_append (b ++ c) ((c2 :: cs).flatten)]
    simp [List.filterMap_append, List.append_assoc]

/-- C2.  For every server byte sequence and every way of splitting it into
network read chunks, the reassembler emits exactly the content fields of
the complete newline-terminated records of the full byte sequence, once
each and in arrival order, independent of the chunking; the trailing
partial line stays buffered, and malformed or content-free lines
contribute nothing without aborting (hypothesis: no record carries a
non-string `message.content`, which would throw in the C++ code). -/
theorem stream_reassembly_chunking_invariant (parse : String → Option Json)
    (chunks : List (List Char))
    (hw : ∀ l ∈ (splitComplete chunks.flatten).1, contentWellTyped parse l = true) :
    streamRun parse chunks =
      ((splitComplete chunks.flatten).2,
       (splitComplete chunks.flatten).1.filterMap (emitOf parse)) := by
  cases chunks with
  | nil => rfl
  | cons c cs =>
    have h := streamRun_from parse c cs [] []
    simpa [streamRun] using h

/-- Witness for C2: the two-record stream of the specification scenario,
split mid-line across reads, emits `Hel` then `lo` and buffers the
trailing partial line. -/
theorem stream_reassembly_chunking_invariant_witness :
    streamRun
      (fun s =>
        if s = "A" then some (Json.obj [("message", Json.obj [("content", Json.str "Hel")])])
        else if s = "B" then some (Json.obj [("message", Json.obj [("content", Json.str "lo")])])
        else none)
      ["A\nB".data, "\nC".data]
      = ("C".data, ["Hel", "lo"]) :=
  (stream_reassembly_chunking_invariant
    (fun s =>
      if s = "A" then some (Json.obj [("message", Json.obj [("content", Json.str "Hel")])])
      else if s = "B" then some (Json.obj [("message", Json.obj [("content", Json.str "lo")])])
      else none)
    ["A\nB".data, "\nC".data] (by decide)).trans (by rfl)

/-- Helper: a getline-split line never contains a newline character. -/
theorem getlineSplitCh_no_newline (s : List Char) :
    ∀ l ∈ getlineSplitCh s, '\n' ∉ l := by
  induction s with
  | nil => simp [getlineSplitCh]
  | cons c rest ih =>
    by_cases hc : c = '\n'
    · subst hc
      simp only [getlineSplitCh, if_pos]
      intro l hl
      rcases List.mem_cons.mp hl with hl | hl
      · subst hl; simp
      · exact ih l hl
    · simp only [getlineSplitCh, if_neg hc]
      cases hrest : getlineSplitCh rest with
      | nil =>
        intro l hl
        rcases List.mem_singleton.mp hl with rfl
        simp [Ne.symm hc]
      | cons l0 ls =>
        intro l hl
        rcases List.mem_cons.mp hl with rfl | hl
        · intro hmem
          rcases List.mem_cons.mp hmem with h | h
          · exact hc h.symm
          · exact ih l0 (by rw [hrest]; exact List.mem_cons_self l0 ls) h
        · exact ih l (by rw [hrest]; exact List.mem_cons_of_mem l0 hl)

/-- Helper: inserting strictly before the end leaves the last element. -/
theorem insertAt_getLast? (k : Nat) (x : α) (ls : List α) (h : k < ls.length) :
    (insertAt k x ls).getLast? = ls.getLast? := by
  induction ls generalizing k with
  | nil => simp at h
  | cons y ys ih =>
    cases k with
    | zero =>
      simp only [insertAt]
      rw [List.getLast?_cons_cons]
    | succ k =>
      have hk : k < ys.length := by simpa using h
      cases ys with
      | nil => simp at hk
      | cons z zs =>
        simp only [insertAt]
        rw [List.getLast?_cons_cons, ← ih k hk]
        cases hins : insertAt k x (z :: zs) with
        | nil =>
          exact absurd hins (by cases k <;> simp [insertAt])
        | cons w ws => rw [List.getLast?_cons_cons]

/-- Helper: the last element of a list, from its optional last value. -/
theorem mem_of_getLast?_eq (l : List α) (a : α) (h : l.getLast? = some a) :
    a ∈ l := by
  induction l with
  | nil => simp at h
  | cons b m ih =>
    cases m with
    | nil =>
      simp only [List.getLast?_singleton, Option.some.injEq] at h
      simp [h]
    | cons c ms =>
      rw [List.getLast?_cons_cons] at h
      exact List.mem_cons_of_mem _ (ih h)

/-- Helper: the joined lines end with the last character of a nonempty
last line (the join appends no terminator). -/
theorem lastChar_joinLines (ls : List String) (l : String)
    (h : ls.getLast? = some l) (hne : l ≠ "") :
    lastChar (joinLines ls) = l.data.getLast? := by
  induction ls with
  | nil => simp at h
  | cons a ls ih =>
    cases ls with
    | nil =>
      simp only [List.getLast?_singleton, Option.some.injEq] at h
      subst h
      rfl
    | cons b ms =>
      have h2 : (b :: ms).getLast? = some l := by
        rw [← List.getLast?_cons_cons (a := a)]; exact h
      have h3 := ih h2
      have h4 : (joinLines (b :: ms)).data ≠ [] := by
        intro hnil
        rw [lastChar, hnil] at h3
        have : l.data ≠ [] := fun hd => hne (congrArg List.asString hd)
        cases hld : l.data with
        | nil => exact this hld
        | cons u us => rw [hld] at h3; simp [List.getLast?] at h3
      show lastChar (a ++ "\n" ++ joinLines (b :: ms)) = l.data.getLast?
      rw [lastChar, String.data_append]
      rw [List.getLast?_append_of_ne_nil _ h4]
      exact h3

/-- C10 counterexample: on a file whose content is `a\n\n` — it ends with
a newline — inserting `x` at line 0 (strictly before the final line)
writes `x\na\n`, which still ends with a newline: the edit does not
always remove the trailing newline, because the getline split renders a
double newline as a trailing empty line that the join re-terminates. -/
theorem fileedit_insert_trailing_newline_refuted :
    lastChar "a\n\n" = some '\n' ∧
    fileEditExecute ⟨false, false, false, true⟩ (fun _ => false)
        (fun p => if p = "f" then some "a\n\n" else none)
        (Json.obj [("path", Json.str "f"), ("insert_at_line", Json.num 0),
                   ("text", Json.str "x")])
      = (ToolResult.success "File successfully edited: f",
         [Event.fileWrite "f" "x\na\n"]) ∧
    lastChar "x\na\n" = some '\n' :=
  ⟨rfl, rfl, rfl⟩

/-- C10 (amended).  Every successful insert-at-line edit rewrites the file
as its getline-split lines joined by single newline separators with no
terminator appended; consequently, when the file content ends with a
newline, its final getline line is nonempty (the content does not end in
two consecutive newlines), and the clamped insertion index lies strictly
before the final line, the rewritten content no longer ends with a
newline. -/
theorem fileedit_insert_join_no_terminator (cfg : Config) (resp : Nat → Bool)
    (fs : String → Option String) (args : Json)
    (path content : String) (ln : Int) (t lastL : String)
    (hp : args.getStr "path" = some path)
    (hdot : containsSub path ".." = false)
    (hf : fs path = some content)
    (hra : args.getStr "replace_all" = none)
    (hot : args.getStr "old_text" = none)
    (hap : args.getStr "append" = none)
    (hpre : args.getStr "prepend" = none)
    (hln : args.getInt "insert_at_line" = some ln)
    (ht : args.getStr "text" = some t)
    (hauto : cfg.auto_confirm_file_ops = true)
    (hend : lastChar content = some '\n')
    (hlast : (getLines content).getLast? = some lastL)
    (hne : lastL ≠ "")
    (hk : clampLine ln (getLines content).length < (getLines content).length) :
    (fileEditExecute cfg resp fs args) =
      (ToolResult.success ("File successfully edited: " ++ path),
       [Event.fileWrite path
          (joinLines (insertAt (clampLine ln (getLines content).length) t
            (getLines content)))]) ∧
    lastChar (joinLines (insertAt (clampLine ln (getLines content).length) t
        (getLines content))) ≠ some '\n' := by
  refine ⟨fileEditExecute_insert_eq cfg resp fs args path content ln t
            hp hdot hf hra hot hap hpre hln ht hauto, ?_⟩
  have h1 : (insertAt (clampLine ln (getLines content).length) t
      (getLines content)).getLast? = some lastL := by
    rw [insertAt_getLast? _ _ _ hk, hlast]
  have h2 := lastChar_joinLines _ _ h1 hne
  rw [h2]
  have hm : lastL ∈ getLines content := mem_of_getLast?_eq _ _ hlast
  have hnonl : '\n' ∉ lastL.data := by
    obtain ⟨l0, hl0, rfl⟩ := List.mem_map.mp hm
    rw [data_asString]
    exact getlineSplitCh_no_newline _ _ hl0
  intro hEq
  exact hnonl (mem_of_getLast?_eq _ _ hEq)

/-- Witness for amended C10: inserting `x` at line 1 of the 3-line file
`a\nb\nc\n` (which ends with a single newline) writes `a\nx\nb\nc`,
dropping the trailing newline. -/
theorem fileedit_insert_join_no_terminator_witness :
    fileEditExecute ⟨false, false, false, true⟩ (fun _ => false)
        (fun p => if p = "f" then some "a\nb\nc\n" else none)
        (Json.obj [("path", Json.str "f"), ("insert_at_line", Json.num 1),
                   ("text", Json.str "x")])
      = (ToolResult.success "File successfully edited: f",
         [Event.fileWrite "f" "a\nx\nb\nc"]) ∧
    lastChar "a\nx\nb\nc" ≠ some '\n' := by
  have h := fileedit_insert_join_no_terminator ⟨false, false, false, true⟩
    (fun _ => false) (fun p => if p = "f" then some "a\nb\nc\n" else none)
    (Json.obj [("path", Json.str "f"), ("insert_at_line", Json.num 1),
               ("text", Json.str "x")])
    "f" "a\nb\nc\n" 1 "x" "c" rfl rfl rfl rfl rfl rfl rfl rfl rfl rfl rfl rfl
    (by decide) (by decide)
  exact ⟨h.1, h.2⟩

end Neoneo
